import Mathlib

/-!
# lldb-eval: random sources of the fuzzer, the Value wrapper, Options and the casts

Shallow embedding of

* `tools/fuzzer/rng.h` : `RngCallbackNotifier`, `Mt19937`, `FixedRng`;
* `lldb-eval/value.h`  : `Value` (constructor, `IsValid`, accessors) and the
  declared signatures of the casts;
* `lldb-eval/api.h`    : `ContextVariableList`, `Options`.

Mutable C++ objects are passed explicitly: a member function takes the object
and returns the new object next to its result.
-/

namespace fuzzer

/-! ## tools/fuzzer/rng.h -/

/-- Source: `typedef std::mt19937::result_type rand_t;` an unsigned machine integer.
`rng.h` does no arithmetic on it (values are only moved around), so a natural
number stands for it. -/
abbrev rand_t : Type := Nat

/-- C++ exceptions that can leave a member function of `rng.h`. -/
inductive Exception where
  /-- Exception `std::bad_function_call`: an empty `std::function` was invoked. -/
  | bad_function_call
  deriving DecidableEq, Repr

/-- How a call of a member function ends: it returns a value, an exception
leaves it (the object keeps the mutations made before the throw), or an
`assert` fails and the process is aborted. Assertions are taken as enabled
(no `NDEBUG`). -/
inductive Outcome (σ α : Type) where
  | returned (value : α) (state : σ)
  | threw (e : Exception) (state : σ)
  | assertFailed
  deriving DecidableEq, Repr

/-- The state left behind by a call, when the process survived it. -/
def Outcome.state? {σ α : Type} : Outcome σ α → Option σ
  | .returned _ s => some s
  | .threw _ s => some s
  | .assertFailed => none

/-- The value a call returned, if it returned. -/
def Outcome.value? {σ α : Type} : Outcome σ α → Option α
  | .returned v _ => some v
  | .threw _ _ => none
  | .assertFailed => none

/-- Type `std::function<void(rand_t)>`: either empty or a callable. The callable
returns nothing; what it does is an effect on the observer's own state `ω`. -/
abbrev StdFunction (ω : Type) : Type := Option (rand_t → ω → ω)

/-- Source: `class RngCallbackNotifier`: the only member is `callback_`, which the
implicit default constructor leaves empty. -/
structure RngCallbackNotifier (ω : Type) where
  callback_ : StdFunction ω := none

/-- Source: `void set_callback(std::function<void(rand_t)> callback)`. -/
def RngCallbackNotifier.set_callback {ω : Type} (_self : RngCallbackNotifier ω)
    (callback : StdFunction ω) : RngCallbackNotifier ω :=
  { callback_ := callback }

/-- Source: `rand_t consume(rand_t value) { callback_(value); return value; }`.
Invoking an empty `std::function` throws `std::bad_function_call`. The object
itself is not changed, so only the observer state is threaded. -/
def RngCallbackNotifier.consume {ω : Type} (self : RngCallbackNotifier ω)
    (value : rand_t) (w : ω) : Outcome ω rand_t :=
  match self.callback_ with
  | none => .threw .bad_function_call w
  | some callback => .returned value (callback value w)

/-- The standard library engine `std::mt19937` as seen by `rng.h`: a state,
the seeding constructor and `operator()`. It is not code of the repository;
every statement below holds for any engine. -/
structure Engine where
  State : Type
  seed : rand_t → State
  next : State → rand_t × State

/-- Source: `class Mt19937 : public RngCallbackNotifier` with member `rng_`. -/
structure Mt19937 (E : Engine) (ω : Type) extends RngCallbackNotifier ω where
  rng_ : E.State

/-- Source: `explicit Mt19937(rand_t seed) : rng_(seed) {}`. -/
def Mt19937.new (E : Engine) (ω : Type) (seed : rand_t) : Mt19937 E ω :=
  { callback_ := none, rng_ := E.seed seed }

/-- The inherited `set_callback` on an `Mt19937`. -/
def Mt19937.set_callback {E : Engine} {ω : Type} (self : Mt19937 E ω)
    (callback : StdFunction ω) : Mt19937 E ω :=
  { self with toRngCallbackNotifier := self.toRngCallbackNotifier.set_callback callback }

/-- Source: `result_type operator()() { return consume(rng_()); }`: the engine is
advanced first, then the drawn value goes through `consume`. -/
def Mt19937.call {E : Engine} {ω : Type} (s : Mt19937 E ω × ω) :
    Outcome (Mt19937 E ω × ω) rand_t :=
  let drawn := E.next s.1.rng_
  let self' : Mt19937 E ω := { s.1 with rng_ := drawn.2 }
  match self'.toRngCallbackNotifier.consume drawn.1 s.2 with
  | .returned v w' => .returned v (self', w')
  | .threw e w' => .threw e (self', w')
  | .assertFailed => .assertFailed

/-- Source: `class FixedRng : public RngCallbackNotifier` with member `queue_`; the
head of the list is the front of the `std::queue`. -/
structure FixedRng (ω : Type) extends RngCallbackNotifier ω where
  queue_ : List rand_t

/-- Source: `explicit FixedRng(std::queue<rand_t> q) : queue_(std::move(q)) {}`. -/
def FixedRng.new (ω : Type) (q : List rand_t) : FixedRng ω :=
  { callback_ := none, queue_ := q }

/-- The inherited `set_callback` on a `FixedRng`. -/
def FixedRng.set_callback {ω : Type} (self : FixedRng ω)
    (callback : StdFunction ω) : FixedRng ω :=
  { self with toRngCallbackNotifier := self.toRngCallbackNotifier.set_callback callback }

/-- The body of `FixedRng::operator()`:
`assert(!queue_.empty()); auto value = queue_.front(); queue_.pop();
return consume(value);`. -/
def FixedRng.call {ω : Type} (s : FixedRng ω × ω) :
    Outcome (FixedRng ω × ω) rand_t :=
  match s.1.queue_ with
  | [] => .assertFailed
  | value :: rest =>
    let self' : FixedRng ω := { s.1 with queue_ := rest }
    match self'.toRngCallbackNotifier.consume value s.2 with
    | .returned v w' => .returned v (self', w')
    | .threw e w' => .threw e (self', w')
    | .assertFailed => .assertFailed

/-! ### Callers of `operator()` -/

/-- A caller that draws `n` times in a row and collects the values; it stops
at the first call that does not return. -/
def draws {σ : Type} (call : σ → Outcome σ rand_t) : Nat → σ → Outcome σ (List rand_t)
  | 0, s => .returned [] s
  | n + 1, s =>
    match call s with
    | .returned v s' =>
      match draws call n s' with
      | .returned vs s'' => .returned (v :: vs) s''
      | .threw e s'' => .threw e s''
      | .assertFailed => .assertFailed
    | .threw e s' => .threw e s'
    | .assertFailed => .assertFailed

/-- The state after `k` calls of `operator()`, whether each returned or threw
(a caller that catches and goes on); `none` once an assertion aborted. -/
def afterCalls {σ : Type} (call : σ → Outcome σ rand_t) : Nat → σ → Option σ
  | 0, s => some s
  | k + 1, s =>
    match (call s).state? with
    | some s' => afterCalls call k s'
    | none => none

/-- The outcome of the call number `i + 1`. -/
def nthCall {σ : Type} (call : σ → Outcome σ rand_t) (i : Nat) (s : σ) :
    Option (Outcome σ rand_t) :=
  (afterCalls call i s).map call

/-- The first `n` outputs of the bare engine started in state `st`. -/
def Engine.outputs (E : Engine) : Nat → E.State → List rand_t
  | 0, _ => []
  | n + 1, st => (E.next st).1 :: E.outputs n (E.next st).2

/-! ### The engine of the standard library

`std::mt19937` is `std::mersenne_twister_engine<uint_fast32_t, 32, 624, 397,
31, 0x9908b0df, 11, 0xffffffff, 7, 0x9d2c5680, 15, 0xefc60000, 18,
1812433253>` of the C++ standard library. It is written out here so that an
`Mt19937` can be run on a concrete seed; no statement depends on it. -/

/-- The state of `std::mt19937`: 624 words of 32 bits and the position of the
next word to hand out. -/
structure MersenneTwister where
  x : Array Nat
  index : Nat
  deriving DecidableEq, Repr

/-- Seeding `std::mt19937(value)`: the first word is `value mod 2^32`, word
`i` is `(1812433253 * (prev xor (prev >> 30)) + i) mod 2^32`. -/
def MersenneTwister.seed (value : rand_t) : MersenneTwister :=
  { x := (List.range 623).foldl
      (fun acc i =>
        let prev := acc.getD i 0
        acc.push ((1812433253 * (prev ^^^ (prev >>> 30)) + (i + 1)) % 2 ^ 32))
      #[value % 2 ^ 32],
    index := 624 }

/-- Regeneration of the 624 words, in place and in order. -/
def MersenneTwister.twist (x : Array Nat) : Array Nat :=
  (List.range 624).foldl
    (fun x i =>
      let y := (x.getD i 0 &&& 0x80000000) ||| (x.getD ((i + 1) % 624) 0 &&& 0x7fffffff)
      x.setD i (x.getD ((i + 397) % 624) 0 ^^^ (y >>> 1)
        ^^^ (if y % 2 = 1 then 0x9908b0df else 0)))
    x

/-- The tempering of an output word. -/
def MersenneTwister.temper (y : Nat) : Nat :=
  let y := y ^^^ ((y >>> 11) &&& 0xffffffff)
  let y := y ^^^ ((y <<< 7) &&& 0x9d2c5680)
  let y := y ^^^ ((y <<< 15) &&& 0xefc60000)
  y ^^^ (y >>> 18)

/-- One call `operator()` of `std::mt19937`. -/
def MersenneTwister.next (s : MersenneTwister) : rand_t × MersenneTwister :=
  let s := if 624 ≤ s.index then { x := MersenneTwister.twist s.x, index := 0 } else s
  (MersenneTwister.temper (s.x.getD s.index 0), { s with index := s.index + 1 })

/-- The engine `std::mt19937`. -/
def std_mt19937 : Engine :=
  { State := MersenneTwister, seed := MersenneTwister.seed, next := MersenneTwister.next }

/-- An observer that records what it is shown, oldest first. -/
def recordDraw : rand_t → List rand_t → List rand_t :=
  fun v log => log ++ [v]

/-- The observer state after a callback has been shown `vs`, one value after
the other. -/
def shown {ω : Type} (f : rand_t → ω → ω) (vs : List rand_t) (w : ω) : ω :=
  vs.foldl (fun acc v => f v acc) w

/-- The observer state after the values `vs` went through `consume` of a
notifier whose callback is `cb`: an empty callback never touches it. -/
def notified {ω : Type} (cb : StdFunction ω) (vs : List rand_t) (w : ω) : ω :=
  match cb with
  | none => w
  | some f => shown f vs w

end fuzzer

namespace lldb_eval

/-! ## The debugger backend behind `lldb-eval/value.h` and `lldb-eval/api.h`

`lldb::SBValue`, `lldb::SBType`, `lldb::SBTarget` and `llvm::APFloat` are
declared in the headers of LLDB and LLVM. The handles are modelled with the
content the spec gives them. -/

/-- Modelled from the spec: `lldb::SBTarget`, the "backend target context
(needed to synthesize new backend-held storage)". The casts only pass it on. -/
structure SBTarget where
  id : Nat
  deriving DecidableEq, Repr

/-- Modelled from the spec: an arbitrary-precision float (`llvm::APFloat`) by
its value: a finite one is `(-1)^negative * significand * 2^exponent`, the
others are the infinities and NaN. -/
inductive APFloat where
  | finite (negative : Bool) (significand : Nat) (exponent : Int)
  | infinity (negative : Bool)
  | nan
  deriving DecidableEq, Repr

/-- Modelled from the spec: what the backend knows of a type, as far as the
spec's classification of cast sources and destinations goes: bool, integer of
a width and signedness, float of a width, pointer of a width, and the rest
(enum, record, ...), told apart by the backend's identity of the type. -/
inductive TypeDesc where
  | boolean
  | integer (bits : Nat) (isSigned : Bool)
  | floating (bits : Nat)
  | pointer (bits : Nat)
  | other (id : Nat)
  deriving DecidableEq, Repr

/-- Modelled from the spec: the backend type handle `lldb::SBType`, empty or
referring to a type description owned by the backend. -/
structure SBType where
  m_opaque_sp : Option TypeDesc
  deriving DecidableEq, Repr

/-- The default constructor `lldb::SBType()`: the empty handle. -/
def SBType.default : SBType := { m_opaque_sp := none }

/-- Validity of a type handle, `lldb::SBType::IsValid()`. -/
def SBType.IsValid (self : SBType) : Bool := self.m_opaque_sp.isSome

/-- Modelled from the spec: a value held by the backend, with the content the
typed readers of the spec return. Its type is determined by it. -/
inductive ValueObject where
  | boolean (b : Bool)
  | integer (bits : Nat) (isSigned : Bool) (v : Int)
  | floating (bits : Nat) (f : APFloat)
  | pointer (bits : Nat) (addr : Nat)
  | other (id : Nat) (bytes : List Nat)
  deriving DecidableEq, Repr

/-- The type description of a backend value. -/
def ValueObject.type : ValueObject → TypeDesc
  | .boolean _ => .boolean
  | .integer bits isSigned _ => .integer bits isSigned
  | .floating bits _ => .floating bits
  | .pointer bits _ => .pointer bits
  | .other id _ => .other id

/-- Modelled from the spec: the backend value handle `lldb::SBValue`. The
handle "resolved to a real value" or it did not; a handle that did not is
empty. -/
structure SBValue where
  m_opaque_sp : Option ValueObject
  deriving DecidableEq, Repr

/-- The default constructor `lldb::SBValue()`: the empty handle. -/
def SBValue.default : SBValue := { m_opaque_sp := none }

/-- Validity of a value handle, `lldb::SBValue::IsValid()`: whether the handle
resolved to a real value. -/
def SBValue.IsValid (self : SBValue) : Bool := self.m_opaque_sp.isSome

/-- The type of a value handle, `lldb::SBValue::GetType()`: the type of the
value it refers to; the empty type handle for the empty value handle. -/
def SBValue.GetType (self : SBValue) : SBType :=
  { m_opaque_sp := self.m_opaque_sp.map ValueObject.type }

/-! ## lldb-eval/value.h -/

/-- Source: `class Type : public lldb::SBType`: the wrapper adds member functions and
no data member. (`Type` is a keyword of Lean, hence the underscore.) -/
structure Type_ extends SBType
  deriving DecidableEq, Repr

/-- Modelled from the spec: the constructor `Type::Type()`, declared in
`value.h` and defined outside `src/`: it wraps the empty type handle. -/
def Type_.default : Type_ := { toSBType := SBType.default }

/-- Modelled from the spec: the constructor `Type::Type(const lldb::SBType&)`,
declared in `value.h` and defined outside `src/`: "constructed by
copying/wrapping a backend type handle". -/
def Type_.ofSBType (type : SBType) : Type_ := { toSBType := type }

/-- Source: `class Value` with its two private members. -/
structure Value where
  value_ : SBValue
  type_ : Type_
  deriving DecidableEq, Repr

/-- Source: `Value() {}`: both members are default-constructed. -/
def Value.default : Value := { value_ := SBValue.default, type_ := Type_.default }

/-- Source: `explicit Value(lldb::SBValue value) { value_ = value; type_ =
value_.GetType(); }`. -/
def Value.new (value : SBValue) : Value :=
  let value_ := value
  { value_ := value_, type_ := Type_.ofSBType value_.GetType }

/-- Source: `bool IsValid() { return value_.IsValid(); }`. -/
def Value.IsValid (self : Value) : Bool := self.value_.IsValid

/-- Source: `explicit operator bool() { return IsValid(); }`. -/
def Value.operator_bool (self : Value) : Bool := self.IsValid

/-- Source: `lldb::SBValue inner_value() const { return value_; }`. -/
def Value.inner_value (self : Value) : SBValue := self.value_

/-- Source: `Type type() const { return type_; }`. -/
def Value.type (self : Value) : Type_ := self.type_

/-- The two accessors of `Value` that C1 speaks of. -/
inductive Accessor where
  | inner_value
  | type
  deriving DecidableEq, Repr

/-- What an accessor hands back. -/
inductive AccessorResult where
  | value (v : SBValue)
  | type (t : Type_)
  deriving DecidableEq, Repr

/-- One call of an accessor on a `Value` object: the result and the object
after the call. Both accessors are `const` member functions returning a copy
of a member, so the object after the call is the object before it. -/
def Value.access (self : Value) : Accessor → AccessorResult × Value
  | .inner_value => (.value self.inner_value, self)
  | .type => (.type self.type, self)

/-- The object after a sequence of accessor calls. -/
def Value.afterAccesses (self : Value) : List Accessor → Value
  | [] => self
  | a :: rest => Value.afterAccesses (self.access a).2 rest

/-! ### The casts

`value.h` declares the casts; their bodies are in `value.cc`, outside `src/`,
and follow the spec here. The `Error&` parameter of `CastScalarToBasicType`
becomes an `Error` passed in and returned. `CastPointerToBasicType` is
declared without one; its outcome is given the way the spec gives the outcome
of every cast, a `Value` paired with an `Error`. -/

/-- Modelled from the spec: the kinds of the error taxonomy (section 7). -/
inductive ErrorKind where
  | InvalidScope
  | TypeMismatch
  | OutOfRange
  | SideEffectNotPermitted
  | UnsupportedConversion
  | BackendFailure
  deriving DecidableEq, Repr

/-- Modelled from the spec: `Error`, declared in `lldb-eval/context.h` outside
`src/`: "kind + human-readable message; absence of error is the canonical
success signal". -/
structure Error where
  kind : Option ErrorKind
  message : String
  deriving DecidableEq, Repr

/-- The absent error. -/
def Error.none : Error := { kind := Option.none, message := "" }

/-- Populate an error with a kind and a message. -/
def Error.Set (_self : Error) (kind : ErrorKind) (message : String) : Error :=
  { kind := some kind, message := message }

/-- Smallest value of an integer type of the given width and signedness
(bool counts as the 1-bit unsigned integer). -/
def integerMin (bits : Nat) (isSigned : Bool) : Int :=
  if isSigned then -((2 : Int) ^ (bits - 1)) else 0

/-- Largest value of an integer type of the given width and signedness. -/
def integerMax (bits : Nat) (isSigned : Bool) : Int :=
  if isSigned then (2 : Int) ^ (bits - 1) - 1 else (2 : Int) ^ bits - 1

/-- Modelled from the spec: "sign-extension/truncation to the destination
width": the value of the low `bits` bits, read with the given signedness. -/
def wrapToWidth (bits : Nat) (isSigned : Bool) (v : Int) : Int :=
  let m := v % (2 : Int) ^ bits
  if isSigned && decide ((2 : Int) ^ (bits - 1) ≤ m) then m - (2 : Int) ^ bits else m

/-- Width and signedness of an integer destination; "bool is treated as a
1-bit unsigned integer source/destination". -/
def TypeDesc.integerFormat? : TypeDesc → Option (Nat × Bool)
  | .boolean => some (1, false)
  | .integer bits isSigned => some (bits, isSigned)
  | _ => Option.none

/-- The significand with the sign applied. -/
def signedSignificand (negative : Bool) (significand : Nat) : Int :=
  if negative then -(significand : Int) else (significand : Int)

/-- Modelled from the spec: "truncates toward zero": the integer part of a
finite float; the magnitude `significand * 2^exponent` is cut to a whole
number and the sign is put back. -/
def APFloat.truncate? : APFloat → Option Int
  | .finite negative significand exponent =>
    let magnitude : Nat :=
      if 0 ≤ exponent then significand * 2 ^ exponent.toNat
      else significand / 2 ^ (-exponent).toNat
    some (signedSignificand negative magnitude)
  | .infinity _ => Option.none
  | .nan => Option.none

/-- Modelled from the spec: whether the value of the float lies in the closed
range `lo .. hi` ("the destination's representable range"); no infinity and
no NaN does. Both sides are scaled by the power of two, so the comparison is
exact. -/
def APFloat.inRange (lo hi : Int) : APFloat → Bool
  | .finite negative significand exponent =>
    let s := signedSignificand negative significand
    if 0 ≤ exponent then
      decide (lo ≤ s * (2 : Int) ^ exponent.toNat) && decide (s * (2 : Int) ^ exponent.toNat ≤ hi)
    else
      decide (lo * (2 : Int) ^ (-exponent).toNat ≤ s) && decide (s ≤ hi * (2 : Int) ^ (-exponent).toNat)
  | .infinity _ => false
  | .nan => false

/-- The value of a finite float as a rational number. -/
def APFloat.toRat? : APFloat → Option ℚ
  | .finite negative significand exponent =>
    some ((signedSignificand negative significand : ℚ) * (2 : ℚ) ^ exponent)
  | .infinity _ => Option.none
  | .nan => Option.none

/-- LLVM's rounding of a number to a float format of a given width
(`llvm::APFloat::convertFromAPInt`, `llvm::APFloat::convert`): external, and
left open by the spec ("value conversion with rounding toward the float's
representable value"). The casts take it as given. -/
structure FloatRounding where
  convertFromAPInt : Nat → Int → APFloat
  convert : Nat → APFloat → APFloat

/-- The rounding that rounds nothing (a format wide enough for the value at
hand), to run the casts on concrete inputs. -/
def FloatRounding.exact : FloatRounding :=
  { convertFromAPInt := fun _ v => .finite (decide (v < 0)) v.natAbs 0,
    convert := fun _ f => f }

/-- Modelled from the spec: `CreateValueFromAPInt`: "value must fit the type's
bit width or is truncated per the same rule as integer casts". A bool holds
the 1-bit value. Declared in `value.h`, defined outside `src/`. -/
def CreateValueFromAPInt (_target : SBTarget) (v : Int) (type : SBType) : Value :=
  match type.m_opaque_sp with
  | some (.integer bits isSigned) =>
    Value.new { m_opaque_sp := some (.integer bits isSigned (wrapToWidth bits isSigned v)) }
  | some .boolean =>
    Value.new { m_opaque_sp := some (.boolean (decide (wrapToWidth 1 false v ≠ 0))) }
  | _ => Value.default

/-- Modelled from the spec: `CreateValueFromAPFloat`: "float type width
determines precision used". Declared in `value.h`, defined outside `src/`. -/
def CreateValueFromAPFloat (_target : SBTarget) (v : APFloat) (type : SBType) : Value :=
  match type.m_opaque_sp with
  | some (.floating bits) => Value.new { m_opaque_sp := some (.floating bits v) }
  | _ => Value.default

/-- Modelled from the spec: the reader `Value::GetInteger()`, declared in
`value.h` and defined outside `src/`: the integer a bool or integer value
holds (bool as the 1-bit unsigned integer). -/
def Value.GetInteger? (self : Value) : Option Int :=
  match self.value_.m_opaque_sp with
  | some (.boolean b) => some (if b then 1 else 0)
  | some (.integer _ _ v) => some v
  | _ => Option.none

/-- Modelled from the spec: `CastScalarToBasicType`, declared at
`value.h:106` with an `Error&` parameter; its body is outside `src/`.
"scalar (integer/float/bool) → another scalar basic type. Integer→integer
applies sign-extension/truncation to the destination width; integer→float
applies value conversion with rounding toward the float's representable
value; float→integer truncates toward zero and must fail (Error) if the value
is outside the destination's representable range (no silent wraparound); bool
is treated as a 1-bit unsigned integer source/destination."
A failure is "an invalid Value accompanied by a descriptive Error" of kind
`OutOfRange`; a success leaves the error as it was. The result is `none` where
the spec's precondition is broken (the source is not a valid scalar or the
destination is not a scalar basic type). -/
def CastScalarToBasicType (R : FloatRounding) (target : SBTarget) (val : Value)
    (type : Type_) (error : Error) : Option (Value × Error) :=
  match val.inner_value.m_opaque_sp, type.m_opaque_sp with
  | some (.floating _ f), some (.floating bits) =>
    some (CreateValueFromAPFloat target (R.convert bits f) type.toSBType, error)
  | some (.floating _ f), some dest =>
    match dest.integerFormat? with
    | some (bits, isSigned) =>
      if f.inRange (integerMin bits isSigned) (integerMax bits isSigned) then
        match f.truncate? with
        | some t => some (CreateValueFromAPInt target t type.toSBType, error)
        | Option.none => some (Value.default, error.Set .OutOfRange "value out of range")
      else
        some (Value.default, error.Set .OutOfRange "value out of range")
    | Option.none => Option.none
  | some _, some dest =>
    match val.GetInteger?, dest with
    | some v, .floating bits =>
      some (CreateValueFromAPFloat target (R.convertFromAPInt bits v) type.toSBType, error)
    | some v, .boolean => some (CreateValueFromAPInt target v type.toSBType, error)
    | some v, .integer _ _ => some (CreateValueFromAPInt target v type.toSBType, error)
    | _, _ => Option.none
  | _, _ => Option.none

/-- Source: `struct ContextVariable { const char* name; lldb::SBValue value; };`. -/
structure ContextVariable where
  name : String
  value : SBValue
  deriving DecidableEq, Repr

/-- Source: `struct ContextVariableList { const ContextVariable* data; size_t size; };`
The pointer is null (`none`) or points to an array owned by the caller. -/
structure ContextVariableList where
  data : Option (List ContextVariable)
  size : Nat
  deriving DecidableEq, Repr

/-- The initialiser `{}` of a `ContextVariableList`: an aggregate initialised
from no initialisers has its members value-initialised, the pointer to null
and the size to zero. -/
def ContextVariableList.valueInit : ContextVariableList := { data := none, size := 0 }

/-- The sequence of context variables a list denotes: the first `size`
elements behind `data`. -/
def ContextVariableList.toList (self : ContextVariableList) : List ContextVariable :=
  match self.data with
  | none => []
  | some elements => elements.take self.size

/-- Source: `struct Options { bool allow_side_effects = false; ContextVariableList
context_vars = {}; };` with its default member initialisers. -/
structure Options where
  allow_side_effects : Bool := false
  context_vars : ContextVariableList := ContextVariableList.valueInit
  deriving DecidableEq, Repr

end lldb_eval

/-! ## Theorems -/

namespace fuzzer

/-! ### Single calls -/

theorem FixedRng_call_nil {ω : Type} (cb : StdFunction ω) (w : ω) :
    FixedRng.call (({ callback_ := cb, queue_ := [] } : FixedRng ω), w) = .assertFailed := rfl

theorem FixedRng_call_cons_some {ω : Type} (f : rand_t → ω → ω) (v : rand_t)
    (rest : List rand_t) (w : ω) :
    FixedRng.call (({ callback_ := some f, queue_ := v :: rest } : FixedRng ω), w)
      = .returned v ({ callback_ := some f, queue_ := rest }, f v w) := rfl

theorem FixedRng_call_cons_none {ω : Type} (v : rand_t) (rest : List rand_t) (w : ω) :
    FixedRng.call (({ callback_ := none, queue_ := v :: rest } : FixedRng ω), w)
      = .threw .bad_function_call ({ callback_ := none, queue_ := rest }, w) := rfl

theorem Mt19937_call_some {E : Engine} {ω : Type} (f : rand_t → ω → ω) (st : E.State) (w : ω) :
    Mt19937.call (({ callback_ := some f, rng_ := st } : Mt19937 E ω), w)
      = .returned (E.next st).1
          ({ callback_ := some f, rng_ := (E.next st).2 }, f (E.next st).1 w) := rfl

theorem Mt19937_call_none {E : Engine} {ω : Type} (st : E.State) (w : ω) :
    Mt19937.call (({ callback_ := none, rng_ := st } : Mt19937 E ω), w)
      = .threw .bad_function_call ({ callback_ := none, rng_ := (E.next st).2 }, w) := rfl

/-! ### Runs of calls -/

theorem shown_cons {ω : Type} (f : rand_t → ω → ω) (v : rand_t) (vs : List rand_t) (w : ω) :
    shown f (v :: vs) w = shown f vs (f v w) := rfl

theorem shown_recordDraw (vs log : List rand_t) : shown recordDraw vs log = log ++ vs := by
  induction vs generalizing log with
  | nil => simp [shown]
  | cons v vs ih => rw [shown_cons, ih]; simp [recordDraw]

/-- With a callback set, `k` draws from a queue holding at least `k` values
return its first `k` values and leave the rest. -/
theorem FixedRng_draws_some {ω : Type} (f : rand_t → ω → ω) (k : Nat) (q : List rand_t)
    (w : ω) (hk : k ≤ q.length) :
    draws FixedRng.call k (({ callback_ := some f, queue_ := q } : FixedRng ω), w)
      = .returned (q.take k)
          ({ callback_ := some f, queue_ := q.drop k }, shown f (q.take k) w) := by
  induction k generalizing q w with
  | zero => rfl
  | succ k ih =>
    cases q with
    | nil => simp at hk
    | cons v rest =>
      have hk' : k ≤ rest.length := by simpa using hk
      simp only [draws, FixedRng_call_cons_some, ih rest (f v w) hk', List.take_succ_cons,
        List.drop_succ_cons, shown_cons]

/-- Drawing once more than the queue holds runs into the assertion. -/
theorem FixedRng_draws_overrun {ω : Type} (f : rand_t → ω → ω) (q : List rand_t) (w : ω) :
    draws FixedRng.call (q.length + 1) (({ callback_ := some f, queue_ := q } : FixedRng ω), w)
      = .assertFailed := by
  induction q generalizing w with
  | nil => rfl
  | cons v rest ih =>
    have h := ih (f v w)
    simp only [List.length_cons]
    rw [draws, FixedRng_call_cons_some]
    simp only [h]

/-- Whatever the callback, `k` calls on a queue holding at least `k` values
pop `k` values and never abort. -/
theorem FixedRng_afterCalls_eq {ω : Type} (cb : StdFunction ω) (k : Nat) (q : List rand_t)
    (w : ω) (hk : k ≤ q.length) :
    afterCalls FixedRng.call k (({ callback_ := cb, queue_ := q } : FixedRng ω), w)
      = some ({ callback_ := cb, queue_ := q.drop k }, notified cb (q.take k) w) := by
  induction k generalizing q w with
  | zero => cases cb <;> rfl
  | succ k ih =>
    cases q with
    | nil => simp at hk
    | cons v rest =>
      have hk' : k ≤ rest.length := by simpa using hk
      cases cb with
      | none =>
        simp only [afterCalls, FixedRng_call_cons_none, Outcome.state?, ih rest w hk',
          List.drop_succ_cons, notified]
      | some f =>
        simp only [afterCalls, FixedRng_call_cons_some, Outcome.state?, ih rest (f v w) hk',
          List.drop_succ_cons, notified, List.take_succ_cons, shown_cons]

/-- Whatever the callback, one call more than the queue holds is aborted by
the assertion. -/
theorem FixedRng_afterCalls_overrun {ω : Type} (cb : StdFunction ω) (q : List rand_t) (w : ω) :
    afterCalls FixedRng.call (q.length + 1) (({ callback_ := cb, queue_ := q } : FixedRng ω), w)
      = none := by
  induction q generalizing w with
  | nil => rfl
  | cons v rest ih =>
    simp only [List.length_cons]
    rw [afterCalls]
    cases cb with
    | none => simp only [FixedRng_call_cons_none, Outcome.state?, ih w]
    | some f => simp only [FixedRng_call_cons_some, Outcome.state?, ih (f v w)]

/-- With a callback set, `n` draws of an `Mt19937` return the next `n`
outputs of its engine. -/
theorem Mt19937_draws_some {E : Engine} {ω : Type} (f : rand_t → ω → ω) (n : Nat)
    (st : E.State) (w : ω) :
    ∃ st' : E.State,
      draws Mt19937.call n (({ callback_ := some f, rng_ := st } : Mt19937 E ω), w)
        = .returned (E.outputs n st)
            ({ callback_ := some f, rng_ := st' }, shown f (E.outputs n st) w) := by
  induction n generalizing st w with
  | zero => exact ⟨st, rfl⟩
  | succ n ih =>
    obtain ⟨st', h⟩ := ih (E.next st).2 (f (E.next st).1 w)
    refine ⟨st', ?_⟩
    simp only [draws, Mt19937_call_some, h, Engine.outputs, shown_cons]

/-! ### The claims on `rng.h` -/

/-- C4: the fixed-sequence source replays its queue in order. For every queue
`q` and every `i < q.length`, the call number `i + 1` on `FixedRng(q)` with an
observer set returns `q[i]`, and the first `q.length` draws return exactly `q`. -/
theorem FixedRng_replays_queue {ω : Type} (q : List rand_t) (f : rand_t → ω → ω) (w : ω) :
    (∀ (i : Nat) (h : i < q.length), ∃ st,
        nthCall FixedRng.call i ((FixedRng.new ω q).set_callback (some f), w)
          = some (.returned q[i] st))
    ∧ ∃ st, draws FixedRng.call q.length ((FixedRng.new ω q).set_callback (some f), w)
          = .returned q st := by
  constructor
  · intro i h
    have hst := FixedRng_afterCalls_eq (some f) i q w (Nat.le_of_lt h)
    refine ⟨({ callback_ := some f, queue_ := q.drop (i + 1) }, f q[i] (shown f (q.take i) w)), ?_⟩
    show Option.map FixedRng.call
        (afterCalls FixedRng.call i (({ callback_ := some f, queue_ := q } : FixedRng ω), w)) = _
    rw [hst, List.drop_eq_getElem_cons h]
    rfl
  · have hd := FixedRng_draws_some f q.length q w (Nat.le_refl _)
    rw [List.take_length] at hd
    exact ⟨_, hd⟩

/-- C4 at the queue `[3, 1, 4]`: the second draw returns `1`. -/
theorem FixedRng_replays_queue_witness :
    ∃ st, nthCall FixedRng.call 1
        ((FixedRng.new (List rand_t) [3, 1, 4]).set_callback (some recordDraw), [])
      = some (.returned 1 st) :=
  (FixedRng_replays_queue [3, 1, 4] recordDraw []).1 1 (by decide)

/-- C5: both random sources notify the observer of every draw. With a callback
`f` set, one call of `operator()` that draws a value `v` applies `f` exactly
once, to `v`, and returns that same `v` (a `FixedRng` needs a non-empty queue
to draw at all); over `n` draws the observer has been shown exactly the
returned values, in the order of the draws. For the recording observer the
log grows by exactly the list of returned values. -/
theorem observer_notified_of_every_draw (E : Engine) :
    (∀ (ω : Type) (f : rand_t → ω → ω) (self : FixedRng ω) (w : ω),
        self.callback_ = some f → self.queue_ ≠ [] →
        ∃ v self', FixedRng.call (self, w) = .returned v (self', f v w))
    ∧ (∀ (ω : Type) (f : rand_t → ω → ω) (self : Mt19937 E ω) (w : ω),
        self.callback_ = some f →
        ∃ v self', Mt19937.call (self, w) = .returned v (self', f v w))
    ∧ (∀ (ω : Type) (f : rand_t → ω → ω) (self : FixedRng ω) (w : ω) (n : Nat),
        self.callback_ = some f → n ≤ self.queue_.length →
        ∃ vs self', vs.length = n ∧
          draws FixedRng.call n (self, w) = .returned vs (self', shown f vs w))
    ∧ (∀ (ω : Type) (f : rand_t → ω → ω) (self : Mt19937 E ω) (w : ω) (n : Nat),
        self.callback_ = some f →
        ∃ vs self', vs.length = n ∧
          draws Mt19937.call n (self, w) = .returned vs (self', shown f vs w))
    ∧ (∀ (self : FixedRng (List rand_t)) (log : List rand_t) (n : Nat),
        self.callback_ = some recordDraw → n ≤ self.queue_.length →
        ∃ vs self', draws FixedRng.call n (self, log) = .returned vs (self', log ++ vs))
    ∧ (∀ (self : Mt19937 E (List rand_t)) (log : List rand_t) (n : Nat),
        self.callback_ = some recordDraw →
        ∃ vs self', draws Mt19937.call n (self, log) = .returned vs (self', log ++ vs)) := by
  refine ⟨?_, ?_, ?_, ?_, ?_, ?_⟩
  · rintro ω f ⟨⟨cb⟩, q⟩ w hcb hq
    simp only at hcb hq
    subst hcb
    cases q with
    | nil => exact absurd rfl hq
    | cons v rest => exact ⟨v, _, FixedRng_call_cons_some f v rest w⟩
  · rintro ω f ⟨⟨cb⟩, st⟩ w hcb
    simp only at hcb
    subst hcb
    exact ⟨_, _, Mt19937_call_some f st w⟩
  · rintro ω f ⟨⟨cb⟩, q⟩ w n hcb hn
    simp only at hcb hn
    subst hcb
    exact ⟨q.take n, _, by simp [hn], FixedRng_draws_some f n q w hn⟩
  · rintro ω f ⟨⟨cb⟩, st⟩ w n hcb
    simp only at hcb
    subst hcb
    obtain ⟨st', h⟩ := Mt19937_draws_some f n st w
    refine ⟨E.outputs n st, _, ?_, h⟩
    clear h
    induction n generalizing st with
    | zero => rfl
    | succ n ih => simp [Engine.outputs, ih]
  · rintro ⟨⟨cb⟩, q⟩ log n hcb hn
    simp only at hcb hn
    subst hcb
    refine ⟨q.take n, { callback_ := some recordDraw, queue_ := q.drop n }, ?_⟩
    rw [FixedRng_draws_some recordDraw n q log hn, shown_recordDraw]
  · rintro ⟨⟨cb⟩, st⟩ log n hcb
    simp only at hcb
    subst hcb
    obtain ⟨st', h⟩ := Mt19937_draws_some recordDraw n st log
    refine ⟨E.outputs n st, { callback_ := some recordDraw, rng_ := st' }, ?_⟩
    rw [h, shown_recordDraw]

/-- C5 at the queue `[3, 1, 4]` with the recording observer: two draws return
values `vs` and the log, empty before, is `vs` afterwards. -/
theorem observer_notified_of_every_draw_witness :
    ∃ vs self', draws FixedRng.call 2
        (({ callback_ := some recordDraw, queue_ := [3, 1, 4] } : FixedRng (List rand_t)), [])
      = .returned vs (self', [] ++ vs) :=
  (observer_notified_of_every_draw std_mt19937).2.2.2.2.1
    { callback_ := some recordDraw, queue_ := [3, 1, 4] } [] 2 rfl (by decide)

/-- C6 fails as stated: on `FixedRng` built from the queue `[7]`, with
`set_callback` never called, the draw does not return `7`; `consume` invokes
the empty callback and `std::bad_function_call` leaves `operator()`, after the
front element has been popped. -/
theorem draw_without_callback_throws :
    FixedRng.call (FixedRng.new Unit [7], ())
        = .threw .bad_function_call (FixedRng.new Unit [], ())
    ∧ (FixedRng.call (FixedRng.new Unit [7], ())).value? = none
    ∧ ¬ ∃ st, FixedRng.call (FixedRng.new Unit [7], ()) = .returned 7 st := by
  refine ⟨rfl, rfl, ?_⟩
  rintro ⟨st, h⟩
  exact Outcome.noConfusion (h.symm.trans (FixedRng_call_cons_none 7 [] ()))

/-- C6 as amended: the callback has to be set before the first draw. On a
source on which `set_callback` was never called, a draw raises
`std::bad_function_call` (a `FixedRng` with a non-empty queue has popped its
front element by then, an `Mt19937` has advanced its engine) and the observer
is untouched; once a non-empty callback is set, the draw returns the next
value: the front of the queue, resp. the next output of the engine. -/
theorem draw_needs_callback (E : Engine) {ω : Type} (w : ω) :
    (∀ (v : rand_t) (rest : List rand_t),
        FixedRng.call (FixedRng.new ω (v :: rest), w)
          = .threw .bad_function_call (FixedRng.new ω rest, w))
    ∧ (∀ seed : rand_t,
        Mt19937.call (Mt19937.new E ω seed, w)
          = .threw .bad_function_call
              ({ callback_ := none, rng_ := (E.next (E.seed seed)).2 }, w))
    ∧ (∀ (f : rand_t → ω → ω) (v : rand_t) (rest : List rand_t),
        FixedRng.call ((FixedRng.new ω (v :: rest)).set_callback (some f), w)
          = .returned v ((FixedRng.new ω rest).set_callback (some f), f v w))
    ∧ (∀ (f : rand_t → ω → ω) (seed : rand_t),
        Mt19937.call ((Mt19937.new E ω seed).set_callback (some f), w)
          = .returned (E.next (E.seed seed)).1
              ({ callback_ := some f, rng_ := (E.next (E.seed seed)).2 },
                f (E.next (E.seed seed)).1 w)) :=
  ⟨fun _ _ => rfl, fun _ => rfl, fun _ _ _ => rfl, fun _ _ => rfl⟩

/-- C7: the seeded source is deterministic in its seed and the observer has no
influence on the values. Two `Mt19937` built from the same seed `s`, each with
a callback of its own (over observers of possibly different kinds), return the
same first `n` draws, and these are the first `n` outputs of the underlying
engine seeded with `s`. -/
theorem Mt19937_deterministic_in_seed (E : Engine) {ω₁ ω₂ : Type} (s : rand_t) (n : Nat)
    (f₁ : rand_t → ω₁ → ω₁) (f₂ : rand_t → ω₂ → ω₂) (w₁ : ω₁) (w₂ : ω₂) :
    ∃ st₁ st₂,
      draws Mt19937.call n ((Mt19937.new E ω₁ s).set_callback (some f₁), w₁)
        = .returned (E.outputs n (E.seed s)) st₁
      ∧ draws Mt19937.call n ((Mt19937.new E ω₂ s).set_callback (some f₂), w₂)
        = .returned (E.outputs n (E.seed s)) st₂ := by
  obtain ⟨a, ha⟩ := Mt19937_draws_some f₁ n (E.seed s) w₁
  obtain ⟨b, hb⟩ := Mt19937_draws_some f₂ n (E.seed s) w₂
  exact ⟨_, _, ha, hb⟩

/-- C10: a `FixedRng` built from a queue of length `n` supports exactly `n`
draws. Whatever the callback, `k ≤ n` calls abort on no assertion and leave
the queue with its first `k` elements dropped; the assertion holds on each of
the first `n` calls; the call number `n + 1` finds the queue empty and fails
the assertion, so a call on a `FixedRng` built from the empty queue fails it;
with a callback set the `n` draws all return, and `n + 1` draws do not. -/
theorem FixedRng_supports_exactly_n_draws {ω : Type} (cb : StdFunction ω)
    (q : List rand_t) (w : ω) :
    (∀ k : Nat, k ≤ q.length → ∃ st,
        afterCalls FixedRng.call k ((FixedRng.new ω q).set_callback cb, w) = some st
        ∧ st.1.queue_ = q.drop k)
    ∧ (∀ i : Nat, i < q.length → ∃ o,
        nthCall FixedRng.call i ((FixedRng.new ω q).set_callback cb, w) = some o
        ∧ o ≠ .assertFailed)
    ∧ (∃ st, afterCalls FixedRng.call q.length ((FixedRng.new ω q).set_callback cb, w) = some st
        ∧ st.1.queue_ = [])
    ∧ nthCall FixedRng.call q.length ((FixedRng.new ω q).set_callback cb, w)
        = some .assertFailed
    ∧ afterCalls FixedRng.call (q.length + 1) ((FixedRng.new ω q).set_callback cb, w) = none
    ∧ FixedRng.call ((FixedRng.new ω []).set_callback cb, w) = .assertFailed
    ∧ (∀ f : rand_t → ω → ω, cb = some f →
        (∃ st, draws FixedRng.call q.length ((FixedRng.new ω q).set_callback cb, w)
          = .returned q st)
        ∧ draws FixedRng.call (q.length + 1) ((FixedRng.new ω q).set_callback cb, w)
          = .assertFailed) := by
  have hinit : (FixedRng.new ω q).set_callback cb = { callback_ := cb, queue_ := q } := rfl
  have hall := FixedRng_afterCalls_eq cb q.length q w (Nat.le_refl _)
  rw [List.drop_length] at hall
  refine ⟨?_, ?_, ?_, ?_, ?_, rfl, ?_⟩
  · intro k hk
    exact ⟨_, FixedRng_afterCalls_eq cb k q w hk, rfl⟩
  · intro i hi
    have hst := FixedRng_afterCalls_eq cb i q w (Nat.le_of_lt hi)
    rw [hinit]
    simp only [nthCall, hst, Option.map_some', List.drop_eq_getElem_cons hi]
    cases cb with
    | none => exact ⟨_, congrArg some (FixedRng_call_cons_none _ _ _), fun h => Outcome.noConfusion h⟩
    | some f => exact ⟨_, congrArg some (FixedRng_call_cons_some f _ _ _), fun h => Outcome.noConfusion h⟩
  · exact ⟨_, hall, rfl⟩
  · rw [hinit]
    simp only [nthCall, hall, Option.map_some', FixedRng_call_nil]
  · rw [hinit]
    exact FixedRng_afterCalls_overrun cb q w
  · intro f hf
    subst hf
    have hd := FixedRng_draws_some f q.length q w (Nat.le_refl _)
    rw [List.take_length] at hd
    exact ⟨⟨_, hd⟩, FixedRng_draws_overrun f q w⟩

/-- C10 at the queue `[3, 1, 4]` with no callback set: after two calls the
queue is `[4]`. -/
theorem FixedRng_supports_exactly_n_draws_witness :
    ∃ st, afterCalls FixedRng.call 2 ((FixedRng.new Unit [3, 1, 4]).set_callback none, ())
        = some st ∧ st.1.queue_ = List.drop 2 [3, 1, 4] :=
  (FixedRng_supports_exactly_n_draws none [3, 1, 4] ()).1 2 (by decide)

end fuzzer

namespace lldb_eval

/-! ### The claims on `value.h` and `api.h` -/

theorem Value_afterAccesses_eq (self : Value) (calls : List Accessor) :
    self.afterAccesses calls = self := by
  induction calls with
  | nil => rfl
  | cons a rest ih => cases a <;> exact ih

/-- C1: for every backend value handle `v`, `Value(v)` wraps exactly `v` and
caches exactly the type of `v`: `inner_value()` is `v` and `type()` is
`v.GetType()`; after any sequence of calls of the two accessors the object is
the same, the accessors still return `v` and `v.GetType()`, and `type()` is
`GetType()` of the wrapped handle. -/
theorem Value_wraps_handle_and_caches_type (v : SBValue) (calls : List Accessor) :
    (Value.new v).inner_value = v
    ∧ (Value.new v).type.toSBType = v.GetType
    ∧ (Value.new v).afterAccesses calls = Value.new v
    ∧ (((Value.new v).afterAccesses calls).access .inner_value).1 = .value v
    ∧ (((Value.new v).afterAccesses calls).access .type).1 = .type (Type_.ofSBType v.GetType)
    ∧ ((Value.new v).afterAccesses calls).type.toSBType
        = ((Value.new v).afterAccesses calls).inner_value.GetType := by
  rw [Value_afterAccesses_eq]
  exact ⟨rfl, rfl, rfl, rfl, rfl, rfl⟩

/-- C2: `IsValid()` of `Value(v)` is the validity of the wrapped handle `v`,
the conversion to `bool` gives the same, and a default-constructed `Value` is
not valid. -/
theorem Value_IsValid_is_handle_validity (v : SBValue) :
    (Value.new v).IsValid = v.IsValid
    ∧ (Value.new v).operator_bool = v.IsValid
    ∧ Value.default.IsValid = false
    ∧ Value.default.operator_bool = false :=
  ⟨rfl, rfl, rfl, rfl⟩

/-- C3: a default-constructed `Options` has `allow_side_effects == false` and
an empty list of context variables: size zero and a null data pointer. -/
theorem Options_default_values :
    ({} : Options).allow_side_effects = false
    ∧ ({} : Options).context_vars.size = 0
    ∧ ({} : Options).context_vars.data = none
    ∧ ({} : Options).context_vars.toList = [] :=
  ⟨rfl, rfl, rfl, rfl⟩

/-! ### Float to integer: range and truncation -/

theorem zpow_two_of_nonneg (e : Int) (he : 0 ≤ e) :
    (2 : ℚ) ^ e = (((2 : Int) ^ e.toNat : Int) : ℚ) := by
  obtain ⟨n, rfl⟩ := Int.eq_ofNat_of_zero_le he
  simp [zpow_natCast]

theorem zpow_two_of_neg (e : Int) (he : ¬ 0 ≤ e) :
    (2 : ℚ) ^ e = ((((2 : Int) ^ (-e).toNat : Int) : ℚ))⁻¹ := by
  have h : e = -(((-e).toNat : Nat) : Int) := by
    rw [Int.toNat_of_nonneg (by omega)]; omega
  conv_lhs => rw [h]
  rw [zpow_neg, zpow_natCast]
  push_cast
  rfl

/-- The exact range test agrees with the comparison of the float's rational
value against the bounds. -/
theorem APFloat_inRange_iff (lo hi : Int) (f : APFloat) :
    f.inRange lo hi = true ↔ ∃ x : ℚ, f.toRat? = some x ∧ (lo : ℚ) ≤ x ∧ x ≤ (hi : ℚ) := by
  cases f with
  | infinity n => simp [APFloat.inRange, APFloat.toRat?]
  | nan => simp [APFloat.inRange, APFloat.toRat?]
  | finite negative significand exponent =>
    simp only [APFloat.inRange, APFloat.toRat?, Option.some.injEq, exists_eq_left']
    by_cases he : 0 ≤ exponent
    · rw [if_pos he, zpow_two_of_nonneg exponent he]
      simp only [Bool.and_eq_true, decide_eq_true_eq]
      rw [← Int.cast_mul, Int.cast_le, Int.cast_le]
    · rw [if_neg he, zpow_two_of_neg exponent he]
      simp only [Bool.and_eq_true, decide_eq_true_eq]
      have hpos : (0 : ℚ) < (((2 : Int) ^ (-exponent).toNat : Int) : ℚ) := by
        exact_mod_cast pow_pos (by norm_num : (0 : Int) < 2) _
      rw [← div_eq_mul_inv, le_div_iff₀ hpos, div_le_iff₀ hpos, ← Int.cast_mul, ← Int.cast_mul,
        Int.cast_le, Int.cast_le]

/-- The whole number kept by the truncation is the floor of the magnitude. -/
theorem truncate_magnitude_eq_floor (m : Nat) (e : Int) :
    (((if 0 ≤ e then m * 2 ^ e.toNat else m / 2 ^ (-e).toNat : Nat) : Nat) : Int)
      = ⌊(m : ℚ) * (2 : ℚ) ^ e⌋ := by
  by_cases he : 0 ≤ e
  · rw [if_pos he, zpow_two_of_nonneg e he]
    have : (m : ℚ) * (((2 : Int) ^ e.toNat : Int) : ℚ) = (((m * 2 ^ e.toNat : Nat) : Int) : ℚ) := by
      push_cast; rfl
    rw [this, Int.floor_intCast]
  · rw [if_neg he, zpow_two_of_neg e he, ← div_eq_mul_inv]
    have : (((2 : Int) ^ (-e).toNat : Int) : ℚ) = (((2 ^ (-e).toNat : Nat)) : ℚ) := by
      push_cast; rfl
    rw [this, Rat.floor_natCast_div_natCast]
    push_cast
    rfl

/-- Truncation cuts toward zero: for a float of value `x` it yields the floor
of `x` when `x` is not negative and the ceiling of `x` when `x` is not
positive. -/
theorem APFloat_truncate_spec (f : APFloat) (x : ℚ) (hx : f.toRat? = some x) :
    ∃ t, f.truncate? = some t ∧ (0 ≤ x → t = ⌊x⌋) ∧ (x ≤ 0 → t = ⌈x⌉) := by
  cases f with
  | infinity n => simp [APFloat.toRat?] at hx
  | nan => simp [APFloat.toRat?] at hx
  | finite negative significand exponent =>
    simp only [APFloat.toRat?, Option.some.injEq] at hx
    refine ⟨_, rfl, ?_⟩
    have hmag := truncate_magnitude_eq_floor significand exponent
    have hy : (0 : ℚ) ≤ (significand : ℚ) * (2 : ℚ) ^ exponent :=
      mul_nonneg (Nat.cast_nonneg _) (zpow_nonneg (by norm_num) _)
    cases negative with
    | false =>
      have hxy : x = (significand : ℚ) * (2 : ℚ) ^ exponent := by
        rw [← hx]; simp [signedSignificand]
      simp only [signedSignificand, Bool.false_eq_true, if_false]
      rw [hmag, ← hxy]
      refine ⟨fun _ => rfl, fun hle => ?_⟩
      have h0 : x = 0 := le_antisymm hle (hxy ▸ hy)
      rw [h0]; simp
    | true =>
      have hxy : x = -((significand : ℚ) * (2 : ℚ) ^ exponent) := by
        rw [← hx]; simp [signedSignificand]
      simp only [signedSignificand, if_true]
      rw [hmag, hxy, Int.ceil_neg]
      refine ⟨fun hge => ?_, fun _ => rfl⟩
      have h0 : (significand : ℚ) * (2 : ℚ) ^ exponent = 0 :=
        le_antisymm (by linarith) hy
      rw [h0]; simp

/-- A value inside the range of an integer type is left alone by the cut to
its width. -/
theorem wrapToWidth_of_inRange (bits : Nat) (isSigned : Bool) (t : Int) (hbits : 0 < bits)
    (hlo : integerMin bits isSigned ≤ t) (hhi : t ≤ integerMax bits isSigned) :
    wrapToWidth bits isSigned t = t := by
  obtain ⟨k, rfl⟩ : ∃ k, bits = k + 1 := ⟨bits - 1, by omega⟩
  have hH : (0 : Int) < 2 ^ k := pow_pos (by norm_num) _
  have hM : (2 : Int) ^ (k + 1) = 2 * 2 ^ k := by rw [pow_succ]; ring
  cases isSigned with
  | false =>
    simp only [integerMin, integerMax, Bool.false_eq_true, if_false] at hlo hhi
    simp only [wrapToWidth, Bool.false_and, Bool.false_eq_true, if_false]
    exact Int.emod_eq_of_lt hlo (by omega)
  | true =>
    simp only [integerMin, integerMax, if_true, Nat.add_sub_cancel] at hlo hhi
    simp only [wrapToWidth, Bool.true_and, decide_eq_true_eq, Nat.add_sub_cancel]
    by_cases hneg : t < 0
    · have hmod : t % (2 : Int) ^ (k + 1) = t + 2 ^ (k + 1) := by
        rw [← Int.add_emod_self]
        exact Int.emod_eq_of_lt (by omega) (by omega)
      rw [hmod, if_pos (by omega)]
      omega
    · have hmod : t % (2 : Int) ^ (k + 1) = t := Int.emod_eq_of_lt (by omega) (by omega)
      rw [hmod, if_neg (by omega)]

/-- The float → integer path when the range test passes. -/
theorem CastScalarToBasicType_float_inRange (R : FloatRounding) (target : SBTarget)
    (fbits : Nat) (f : APFloat) (dest : TypeDesc) (bits : Nat) (isSigned : Bool) (error : Error)
    (t : Int) (hdest : dest.integerFormat? = some (bits, isSigned))
    (hin : f.inRange (integerMin bits isSigned) (integerMax bits isSigned) = true)
    (ht : f.truncate? = some t) :
    CastScalarToBasicType R target (Value.new { m_opaque_sp := some (.floating fbits f) })
        (Type_.ofSBType { m_opaque_sp := some dest }) error
      = some (CreateValueFromAPInt target t { m_opaque_sp := some dest }, error) := by
  cases dest <;> simp only [TypeDesc.integerFormat?, Option.some.injEq, Prod.mk.injEq,
    reduceCtorEq] at hdest
  · obtain ⟨rfl, rfl⟩ := hdest
    simp [CastScalarToBasicType, Value.new, Value.inner_value, Type_.ofSBType,
      TypeDesc.integerFormat?, hin, ht]
  · obtain ⟨rfl, rfl⟩ := hdest
    simp [CastScalarToBasicType, Value.new, Value.inner_value, Type_.ofSBType,
      TypeDesc.integerFormat?, hin, ht]

/-- The float → integer path when the range test fails. -/
theorem CastScalarToBasicType_float_outOfRange (R : FloatRounding) (target : SBTarget)
    (fbits : Nat) (f : APFloat) (dest : TypeDesc) (bits : Nat) (isSigned : Bool) (error : Error)
    (hdest : dest.integerFormat? = some (bits, isSigned))
    (hout : f.inRange (integerMin bits isSigned) (integerMax bits isSigned) = false) :
    CastScalarToBasicType R target (Value.new { m_opaque_sp := some (.floating fbits f) })
        (Type_.ofSBType { m_opaque_sp := some dest }) error
      = some (Value.default, error.Set .OutOfRange "value out of range") := by
  cases dest <;> simp only [TypeDesc.integerFormat?, Option.some.injEq, Prod.mk.injEq,
    reduceCtorEq] at hdest
  · obtain ⟨rfl, rfl⟩ := hdest
    simp [CastScalarToBasicType, Value.new, Value.inner_value, Type_.ofSBType,
      TypeDesc.integerFormat?, hout]
  · obtain ⟨rfl, rfl⟩ := hdest
    simp [CastScalarToBasicType, Value.new, Value.inner_value, Type_.ofSBType,
      TypeDesc.integerFormat?, hout]

/-- An integer inside the range of the destination is stored as it is: the
created value is valid, has the destination type and reads back unchanged. -/
theorem CreateValueFromAPInt_of_inRange (target : SBTarget) (dest : TypeDesc) (bits : Nat)
    (isSigned : Bool) (t : Int) (hdest : dest.integerFormat? = some (bits, isSigned))
    (hbits : 0 < bits) (hlo : integerMin bits isSigned ≤ t) (hhi : t ≤ integerMax bits isSigned) :
    (CreateValueFromAPInt target t { m_opaque_sp := some dest }).IsValid = true
    ∧ (CreateValueFromAPInt target t { m_opaque_sp := some dest }).type
        = Type_.ofSBType { m_opaque_sp := some dest }
    ∧ (CreateValueFromAPInt target t { m_opaque_sp := some dest }).GetInteger? = some t := by
  have hw := wrapToWidth_of_inRange bits isSigned t hbits hlo hhi
  cases dest <;> simp only [TypeDesc.integerFormat?, Option.some.injEq, Prod.mk.injEq,
    reduceCtorEq] at hdest
  · obtain ⟨rfl, rfl⟩ := hdest
    refine ⟨rfl, rfl, ?_⟩
    simp only [integerMin, integerMax, Bool.false_eq_true, if_false] at hlo hhi
    simp only [CreateValueFromAPInt, Value.new, Value.GetInteger?, hw, Option.some.injEq]
    have h01 : t = 0 ∨ t = 1 := by omega
    rcases h01 with h | h <;> simp [h]
  · obtain ⟨rfl, rfl⟩ := hdest
    refine ⟨rfl, rfl, ?_⟩
    simp only [CreateValueFromAPInt, Value.new, Value.GetInteger?, hw]

/-- C8: for every floating-point source value and every integer destination
basic type (bool as the 1-bit unsigned integer), `CastScalarToBasicType`
(a) succeeds when the value `x` of the float lies in the closed range of the
destination: the error is left as it was and the result is a valid value of
the destination type holding `x` cut toward zero (the floor of a non-negative
`x`, the ceiling of a non-positive `x`), itself inside the range, so nothing
wraps around; (b) fails when the float is an infinity, a NaN or has a value
strictly below the minimum or strictly above the maximum: the result is the
invalid `Value` and the error is populated with kind `OutOfRange`; (c)
succeeds at the exact boundaries, yielding the minimum, resp. the maximum. -/
theorem CastScalarToBasicType_float_to_integer (R : FloatRounding) (target : SBTarget)
    (fbits : Nat) (f : APFloat) (dest : TypeDesc) (bits : Nat) (isSigned : Bool) (error : Error)
    (hdest : dest.integerFormat? = some (bits, isSigned)) (hbits : 0 < bits) :
    (∀ x : ℚ, f.toRat? = some x →
        (integerMin bits isSigned : ℚ) ≤ x → x ≤ (integerMax bits isSigned : ℚ) →
        ∃ result t,
          CastScalarToBasicType R target (Value.new { m_opaque_sp := some (.floating fbits f) })
              (Type_.ofSBType { m_opaque_sp := some dest }) error = some (result, error)
          ∧ result.IsValid = true
          ∧ result.type = Type_.ofSBType { m_opaque_sp := some dest }
          ∧ result.GetInteger? = some t
          ∧ integerMin bits isSigned ≤ t ∧ t ≤ integerMax bits isSigned
          ∧ (0 ≤ x → t = ⌊x⌋) ∧ (x ≤ 0 → t = ⌈x⌉))
    ∧ ((f.toRat? = none ∨ ∃ x : ℚ, f.toRat? = some x ∧
          (x < (integerMin bits isSigned : ℚ) ∨ (integerMax bits isSigned : ℚ) < x)) →
        ∃ error',
          CastScalarToBasicType R target (Value.new { m_opaque_sp := some (.floating fbits f) })
              (Type_.ofSBType { m_opaque_sp := some dest }) error = some (Value.default, error')
          ∧ error'.kind = some ErrorKind.OutOfRange
          ∧ Value.default.IsValid = false)
    ∧ (∀ b : Int, (b = integerMin bits isSigned ∨ b = integerMax bits isSigned) →
        f.toRat? = some (b : ℚ) →
        ∃ result,
          CastScalarToBasicType R target (Value.new { m_opaque_sp := some (.floating fbits f) })
              (Type_.ofSBType { m_opaque_sp := some dest }) error = some (result, error)
          ∧ result.IsValid = true
          ∧ result.GetInteger? = some b) := by
  have inside : ∀ x : ℚ, f.toRat? = some x →
      (integerMin bits isSigned : ℚ) ≤ x → x ≤ (integerMax bits isSigned : ℚ) →
      ∃ result t,
        CastScalarToBasicType R target (Value.new { m_opaque_sp := some (.floating fbits f) })
            (Type_.ofSBType { m_opaque_sp := some dest }) error = some (result, error)
        ∧ result.IsValid = true
        ∧ result.type = Type_.ofSBType { m_opaque_sp := some dest }
        ∧ result.GetInteger? = some t
        ∧ integerMin bits isSigned ≤ t ∧ t ≤ integerMax bits isSigned
        ∧ (0 ≤ x → t = ⌊x⌋) ∧ (x ≤ 0 → t = ⌈x⌉) := by
    intro x hx hlo hhi
    have hin : f.inRange (integerMin bits isSigned) (integerMax bits isSigned) = true :=
      (APFloat_inRange_iff _ _ f).2 ⟨x, hx, hlo, hhi⟩
    obtain ⟨t, ht, hfloor, hceil⟩ := APFloat_truncate_spec f x hx
    have htlo : integerMin bits isSigned ≤ t := by
      rcases le_total 0 x with h | h
      · rw [hfloor h]; exact Int.le_floor.2 hlo
      · rw [hceil h]; exact Int.cast_le.1 (hlo.trans (Int.le_ceil x))
    have hthi : t ≤ integerMax bits isSigned := by
      rcases le_total 0 x with h | h
      · rw [hfloor h]; exact Int.cast_le.1 ((Int.floor_le x).trans hhi)
      · rw [hceil h]; exact Int.ceil_le.2 hhi
    obtain ⟨hv, hty, hget⟩ :=
      CreateValueFromAPInt_of_inRange target dest bits isSigned t hdest hbits htlo hthi
    exact ⟨_, t, CastScalarToBasicType_float_inRange R target fbits f dest bits isSigned error t
      hdest hin ht, hv, hty, hget, htlo, hthi, hfloor, hceil⟩
  refine ⟨inside, ?_, ?_⟩
  · intro hout
    have hnot : f.inRange (integerMin bits isSigned) (integerMax bits isSigned) = false := by
      rw [Bool.eq_false_iff]
      intro hin
      obtain ⟨x, hx, hlo, hhi⟩ := (APFloat_inRange_iff _ _ f).1 hin
      rcases hout with hnone | ⟨y, hy, hlt | hgt⟩
      · rw [hnone] at hx; exact Option.noConfusion hx
      · rw [hx] at hy; cases hy; exact absurd hlo (not_le.2 hlt)
      · rw [hx] at hy; cases hy; exact absurd hhi (not_le.2 hgt)
    exact ⟨_, CastScalarToBasicType_float_outOfRange R target fbits f dest bits isSigned error
      hdest hnot, rfl, rfl⟩
  · intro b hb hx
    have hminmax : integerMin bits isSigned ≤ integerMax bits isSigned := by
      have hpos : (0 : Int) < 2 ^ (bits - 1) := pow_pos (by norm_num) _
      have hpos' : (0 : Int) < 2 ^ bits := pow_pos (by norm_num) _
      cases isSigned <;> simp only [integerMin, integerMax, Bool.false_eq_true, if_false, if_true]
        <;> omega
    have hlo : (integerMin bits isSigned : ℚ) ≤ (b : ℚ) := by
      rcases hb with h | h <;> rw [h]
      exact Int.cast_le.2 hminmax
    have hhi : (b : ℚ) ≤ (integerMax bits isSigned : ℚ) := by
      rcases hb with h | h <;> rw [h]
      exact Int.cast_le.2 hminmax
    obtain ⟨result, t, hcast, hv, _, hget, _, _, hfloor, hceil⟩ := inside b hx hlo hhi
    have htb : t = b := by
      rcases le_total 0 (b : ℚ) with h | h
      · rw [hfloor h, Int.floor_intCast]
      · rw [hceil h, Int.ceil_intCast]
    exact ⟨result, hcast, hv, htb ▸ hget⟩

/-- C8 at the float `255.0` and the destination `unsigned char` (8 bits): the
value sits on the upper boundary and the cast succeeds with `255`. -/
theorem CastScalarToBasicType_float_to_integer_witness :
    ∃ result,
      CastScalarToBasicType FloatRounding.exact { id := 0 }
          (Value.new { m_opaque_sp := some (.floating 64 (.finite false 255 0)) })
          (Type_.ofSBType { m_opaque_sp := some (.integer 8 false) }) Error.none
        = some (result, Error.none)
      ∧ result.IsValid = true
      ∧ result.GetInteger? = some 255 :=
  (CastScalarToBasicType_float_to_integer FloatRounding.exact { id := 0 } 64
    (.finite false 255 0) (.integer 8 false) 8 false Error.none rfl (by decide)).2.2
    255 (Or.inr (by decide)) (by simp [APFloat.toRat?, signedSignificand])

end lldb_eval
